import Mathlib

/-!
Verification development for the tap-pardot incremental replication engine
(`tap_pardot/streams.py`).  Ids and timestamps are modelled as `Int`
(Pardot ids are integers; timestamp strings in the fixed
`"%Y-%m-%d %H:%M:%S"` format compare lexicographically exactly as the
corresponding instants, so we embed them as integer seconds; the Python
`timedelta(seconds=1)` / `timedelta(days=7)` arithmetic becomes integer
arithmetic).  Pages delivered by the HTTP client are modelled as lists of
the relevant field values; `sorted(records, key=...)` from
`Stream.get_records` is embedded as `List.insertionSort (· ≤ ·)` (a stable
ascending sort, like Python's `sorted`).
-/

namespace TapPardot

/-- The classified out-of-order error
(`exceptions.TapPardotUnorderedDataException`), carrying the offending
current value and the last recorded value as the Python message does. -/
inductive OrderErr where
  | outOfOrder (current last : Int) : OrderErr
deriving DecidableEq, Repr

/-- `Stream.check_order` (streams.py:83-92): `_last_bookmark_value` is the
`Option Int` argument (`None` before the first call of a run); if absent it
is first set to the candidate, then the candidate is rejected iff it is
strictly less than the recorded value, and on acceptance the recorded value
becomes the candidate (returned here as the `.ok` payload). -/
def check_order (last : Option Int) (v : Int) : Except OrderErr Int :=
  let l := last.getD v
  if v < l then .error (.outOfOrder v l) else .ok v

/-- Per-run state of the base `Stream`: the guard's `_last_bookmark_value`,
the persisted bookmark for the stream's replication key (`none` = absent
from the state file), and the records emitted so far. -/
structure RunSt where
  last : Option Int
  bookmark : Option Int
  emitted : List Int
deriving DecidableEq, Repr

/-- The body of `Stream.sync_page` (streams.py:94-99) over the records of
one page (already sorted by `get_records`): for each record, run the guard
on its replication-key value, persist that value as the bookmark
(`update_bookmark`), and emit it.  A guard failure aborts the page; the
state reached so far is kept (the Python object keeps its mutations). -/
def sync_page_records : List Int → RunSt → RunSt × Option OrderErr
  | [], st => (st, none)
  | v :: vs, st =>
    match check_order st.last v with
    | .error e => (st, some e)
    | .ok l => sync_page_records vs ⟨some l, some v, st.emitted ++ [v]⟩

/-- `Stream.sync_page` for one fetched page: `get_records`
(streams.py:63-74) sorts the page by the replication key before yielding. -/
def sync_page (page : List Int) (st : RunSt) : RunSt × Option OrderErr :=
  sync_page_records (page.insertionSort (· ≤ ·)) st

/-- The page-fetching loop of `Stream.sync` (streams.py:104-111) restricted
to its successful path: pages are processed in order until the supply ends
(the run stops when a pass yields no new records); a guard error stops the
run. -/
def sync_pages : List (List Int) → RunSt → RunSt × Option OrderErr
  | [], st => (st, none)
  | p :: ps, st =>
    match sync_page p st with
    | (st2, none) => sync_pages ps st2
    | (st2, some e) => (st2, some e)

/-- C1: the Ordering Guard accepts and records the first candidate of a
run; on a later call with candidate `v` it raises the out-of-order error
iff `v` is strictly less than the last recorded value, otherwise accepting
and recording `v` (a duplicate equal to the last value is accepted); and
the id-cursor run over the page `[5, 12, 12, 40]` starting from an absent
bookmark emits all four records without raising, ending with bookmark 40. -/
theorem c1_ordering_guard :
    (∀ v : Int, check_order none v = .ok v) ∧
    (∀ l v : Int, check_order (some l) v = .error (.outOfOrder v l) ↔ v < l) ∧
    (∀ l : Int, check_order (some l) l = .ok l) ∧
    sync_pages [[5, 12, 12, 40]] ⟨none, none, []⟩ =
      (⟨some 40, some 40, [5, 12, 12, 40]⟩, none) := by
  refine ⟨?_, ?_, ?_, by decide⟩
  · intro v
    simp [check_order]
  · intro l v
    constructor
    · intro h
      by_contra hlt
      simp [check_order, hlt] at h
    · intro h
      simp [check_order, h]
  · intro l
    simp [check_order]

/-- C10: the guard's last-seen value is initialized from the first
candidate of the run, not from the persisted bookmark: with a fresh guard
(`_last_bookmark_value = None`) and any persisted bookmark `bm`, a first
record whose value `v` is strictly below `bm` is still accepted, the
bookmark is rewritten to `v`, and the run succeeds — the regression
relative to the previous run's committed bookmark is never detected. -/
theorem c10_guard_ignores_persisted_bookmark (bm v : Int) (_h : v < bm) :
    sync_pages [[v]] ⟨none, some bm, []⟩ = (⟨some v, some v, [v]⟩, none) := by
  simp [sync_pages, sync_page, List.insertionSort, List.orderedInsert,
    sync_page_records, check_order]

/-- Witness for `c10_guard_ignores_persisted_bookmark` at bookmark 10 and
first candidate 3. -/
theorem c10_guard_ignores_persisted_bookmark_witness :
    sync_pages [[3]] ⟨none, some 10, []⟩ = (⟨some 3, some 3, [3]⟩, none) :=
  c10_guard_ignores_persisted_bookmark 10 3 (by decide)

/-! ### Visitors and VisitorActivities page loops -/

/-- Per-run state of `Visitors.sync_page`: guard value, persisted bookmark,
emitted records, and the number of out-of-order warnings logged. -/
structure VisSt where
  last : Option Int
  bookmark : Option Int
  emitted : List Int
  warnings : Nat
deriving DecidableEq, Repr

/-- `Visitors.sync_page` (streams.py:608-656) over one sorted page: if the
guard value is unset it is first set to the candidate; a candidate strictly
below the guard value is logged as a warning and skipped (not emitted, no
bookmark write); otherwise the guard value and bookmark advance to the
candidate and the record is emitted. -/
def visitors_sync_records : List Int → VisSt → VisSt
  | [], st => st
  | v :: vs, st =>
    let l := st.last.getD v
    if v < l then
      visitors_sync_records vs { st with warnings := st.warnings + 1 }
    else
      visitors_sync_records vs ⟨some v, some v, st.emitted ++ [v], st.warnings⟩

/-- `Visitors.sync_page` for one fetched page (pages are sorted by
`get_records`). -/
def visitors_sync_page (page : List Int) (st : VisSt) : VisSt :=
  visitors_sync_records (page.insertionSort (· ≤ ·)) st

/-- The page loop of `Stream.sync` applied to `Visitors` (its `sync_page`
never raises, so the loop just folds pages). -/
def visitors_sync_pages : List (List Int) → VisSt → VisSt
  | [], st => st
  | p :: ps, st => visitors_sync_pages ps (visitors_sync_page p st)

/-- Per-run state of `VisitorActivities.sync_page`: guard value
(`_last_bookmark_value`), persisted bookmark, emitted records.
`get_bookmark()` is `bookmark.getD defaultStart` (streams.py:41-47). -/
structure VASt where
  last : Option Int
  bookmark : Option Int
  emitted : List Int
deriving DecidableEq, Repr

/-- `VisitorActivities.sync_page` (streams.py:450-458) over one sorted
page: each record is yielded *first*; then, if the guard value is unset, it
is initialized from the persisted bookmark (`get_bookmark()`); the bookmark
and guard value advance only when the candidate is strictly greater.  No
code path raises: out-of-order records are emitted and merely fail to
advance the bookmark. -/
def va_sync_records (defaultStart : Int) : List Int → VASt → VASt
  | [], st => st
  | v :: vs, st =>
    let st1 : VASt := { st with emitted := st.emitted ++ [v] }
    let l := st1.last.getD (st1.bookmark.getD defaultStart)
    if v > l then
      va_sync_records defaultStart vs { st1 with bookmark := some v, last := some v }
    else
      va_sync_records defaultStart vs { st1 with last := some l }

/-- `VisitorActivities.sync_page` for one fetched page (pages are sorted by
`get_records`). -/
def va_sync_page (defaultStart : Int) (page : List Int) (st : VASt) : VASt :=
  va_sync_records defaultStart (page.insertionSort (· ≤ ·)) st

/-- Folding `VisitorActivities.sync_page` over successive pages. -/
def va_sync_pages (defaultStart : Int) : List (List Int) → VASt → VASt
  | [], st => st
  | p :: ps, st => va_sync_pages defaultStart ps (va_sync_page defaultStart p st)

/-! ### Prospects page loop -/

/-- Per-run state of `Prospects.sync_page`: the persisted bookmark and the
emitted records.  `Prospects` performs no ordering check at all. -/
structure PSt where
  bookmark : Option Int
  emitted : List Int
deriving DecidableEq, Repr

/-- The `while True` loop of `Prospects.sync_page` (streams.py:520-552),
given the successive pages the client returns: an empty page breaks the
loop; a non-empty page is sorted and emitted, the local `bookmark` variable
ends at the last sorted record's timestamp, one second is subtracted
(`timedelta(seconds=1)`), and the result is persisted via
`update_bookmark`. -/
def prospects_sync_page_loop : List (List Int) → Int → PSt → PSt
  | [], _, st => st
  | page :: rest, local_bm, st =>
    if page.isEmpty then st
    else
      let sp := page.insertionSort (· ≤ ·)
      let lb := sp.getLastD local_bm
      prospects_sync_page_loop rest (lb - 1) ⟨some (lb - 1), st.emitted ++ sp⟩

/-- `Prospects.sync_page`: the local `bookmark` variable starts at
`get_bookmark()` (persisted value or the configured start date `d`). -/
def prospects_sync_page (d : Int) (pages : List (List Int)) (st : PSt) : PSt :=
  prospects_sync_page_loop pages (st.bookmark.getD d) st

/-- C2 counterexample: the claim says every cursor variant except visitors
raises on a page value strictly below the previous page's last value.  But
`VisitorActivities` (the created-at cursor entity, whose `sync_page`
overrides the guarded base loop) fed pages `[10]` then `[5]` emits the
out-of-order record 5 and completes without any error — its `sync_page` has
no raising path — while merely leaving the bookmark at 10; the base guarded
loop at the same input does raise.  So visitors is not the only
exception. -/
theorem c2_counterexample :
    (va_sync_pages 0 [[10], [5]] ⟨none, none, []⟩).emitted = [10, 5] ∧
    (va_sync_pages 0 [[10], [5]] ⟨none, none, []⟩).bookmark = some 10 ∧
    (sync_pages [[10], [5]] ⟨none, none, []⟩).2 = some (.outOfOrder 5 10) := by
  decide

/-- C2 amended: on a page value `b` strictly below the previous page's last
value `a`, the guarded base loop (used by the id-, created-at- and
updated-at-cursor base classes) raises the out-of-order error; `Visitors`
logs a warning and skips the record (not emitted, bookmark not advanced,
run does not fail); but two further entities also do not raise:
`VisitorActivities` emits the record without advancing the bookmark, and
`Prospects` performs no ordering check at all, emitting the record and
persisting its timestamp minus one second. -/
theorem c2_amended (a b d : Int) (hba : b < a) (hda : d < a) :
    (sync_pages [[a], [b]] ⟨none, none, []⟩).2 = some (.outOfOrder b a) ∧
    visitors_sync_pages [[a], [b]] ⟨none, none, [], 0⟩ = ⟨some a, some a, [a], 1⟩ ∧
    va_sync_pages d [[a], [b]] ⟨none, none, []⟩ = ⟨some a, some a, [a, b]⟩ ∧
    prospects_sync_page d [[a], [b]] ⟨none, []⟩ = ⟨some (b - 1), [a, b]⟩ := by
  have hnab : ¬ a < b := not_lt.mpr hba.le
  have hab : a > d := hda
  have hnba : ¬ b > a := not_lt.mpr hba.le
  refine ⟨?_, ?_, ?_, ?_⟩
  · simp [sync_pages, sync_page, List.insertionSort, List.orderedInsert,
      sync_page_records, check_order, hba, hnab]
  · simp [visitors_sync_pages, visitors_sync_page, List.insertionSort,
      List.orderedInsert, visitors_sync_records, hba, lt_irrefl]
  · simp [va_sync_pages, va_sync_page, List.insertionSort, List.orderedInsert,
      va_sync_records, hab, hnba]
  · simp [prospects_sync_page, prospects_sync_page_loop, List.insertionSort,
      List.orderedInsert]

/-- Witness for `c2_amended` at `a = 10`, `b = 5`, `d = 0`. -/
theorem c2_amended_witness :
    (sync_pages [[10], [5]] ⟨none, none, []⟩).2 = some (.outOfOrder 5 10) ∧
    visitors_sync_pages [[10], [5]] ⟨none, none, [], 0⟩ = ⟨some 10, some 10, [10], 1⟩ ∧
    va_sync_pages 0 [[10], [5]] ⟨none, none, []⟩ = ⟨some 10, some 10, [10, 5]⟩ ∧
    prospects_sync_page 0 [[10], [5]] ⟨none, []⟩ = ⟨some 4, [10, 5]⟩ :=
  c2_amended 10 5 0 (by decide) (by decide)

/-! ### Behaviour of the guarded loop on non-decreasing input -/

/-- Helper: with the guard already holding `l` and a chain of
non-decreasing records starting at `l`, the guarded page body accepts every
record, ends with guard and bookmark at the last record, and emits all of
them. -/
theorem sync_page_records_chain (xs : List Int) :
    ∀ (l : Int) (st : RunSt), st.last = some l →
      List.Chain (· ≤ ·) l xs →
      sync_page_records xs st =
        (⟨some (xs.getLastD l),
          if xs.isEmpty then st.bookmark else some (xs.getLastD l),
          st.emitted ++ xs⟩, none) := by
  induction xs with
  | nil =>
      intro l st hl _
      cases st
      simp_all [sync_page_records]
  | cons x xs ih =>
      intro l st hl hch
      rcases List.chain_cons.mp hch with ⟨hlx, hch2⟩
      have hnx : ¬ x < l := not_lt.mpr hlx
      have hrec := ih x ⟨some x, some x, st.emitted ++ [x]⟩ rfl hch2
      simp only [sync_page_records, check_order, hl, Option.getD_some,
        if_neg hnx, hrec]
      cases xs <;> simp [List.getLastD]

/-- Helper: a fresh guard (`_last_bookmark_value = None`) run over a
non-empty non-decreasing record list never raises, emits everything, and
leaves guard and bookmark at the last record. -/
theorem sync_page_records_chain_none (xs : List Int) (st : RunSt)
    (hl : st.last = none) (hch : xs.Chain' (· ≤ ·)) (hne : xs ≠ []) :
    sync_page_records xs st =
      (⟨some (xs.getLastD 0), some (xs.getLastD 0), st.emitted ++ xs⟩, none) := by
  cases xs with
  | nil => exact absurd rfl hne
  | cons v rest =>
      cases rest with
      | nil => simp [sync_page_records, check_order, hl, List.getLastD]
      | cons x t =>
          have hrec := sync_page_records_chain (x :: t) v
            ⟨some v, some v, st.emitted ++ [v]⟩ rfl hch
          have hco : check_order st.last v = .ok v := by
            simp [check_order, hl]
          show (match check_order st.last v with
            | .error e => (st, some e)
            | .ok l =>
                sync_page_records (x :: t) ⟨some l, some v, st.emitted ++ [v]⟩) = _
          rw [hco]
          show sync_page_records (x :: t) ⟨some v, some v, st.emitted ++ [v]⟩ = _
          rw [hrec]
          simp [List.getLastD_cons]
          rw [List.getLast?_eq_getLast (x :: t) (by simp)]
          simp

/-- Helper: the guarded page body over an appended record list splits at
the first error. -/
theorem sync_page_records_append (xs ys : List Int) :
    ∀ st : RunSt,
      sync_page_records (xs ++ ys) st =
        match sync_page_records xs st with
        | (st2, none) => sync_page_records ys st2
        | (st2, some e) => (st2, some e) := by
  induction xs with
  | nil => intro st; simp [sync_page_records]
  | cons x xs ih =>
      intro st
      cases h : check_order st.last x with
      | error e => simp [sync_page_records, h]
      | ok l => simp [sync_page_records, h, ih]

/-- Helper: when every page arrives sorted, the page loop is the guarded
body run over the concatenation of the pages. -/
theorem sync_pages_eq_flatten (pages : List (List Int))
    (hs : ∀ p ∈ pages, p.Sorted (· ≤ ·)) :
    ∀ st : RunSt, sync_pages pages st = sync_page_records pages.flatten st := by
  induction pages with
  | nil => intro st; simp [sync_pages, sync_page_records]
  | cons p ps ih =>
      intro st
      have hp : p.insertionSort (· ≤ ·) = p :=
        (hs p (by simp)).insertionSort_eq
      have hrest : ∀ q ∈ ps, q.Sorted (· ≤ ·) := fun q hq => hs q (by simp [hq])
      rw [List.flatten_cons, sync_page_records_append]
      simp only [sync_pages, sync_page, hp]
      cases h : sync_page_records p st with
      | mk st2 err =>
        cases err with
        | none => simp [ih hrest st2]
        | some e => simp

/-- C3 counterexample: `Prospects` is an updated-at cursor variant, and a
run over the single (trivially non-decreasing) page `[10]` never raises —
but the final persisted bookmark is `9`, not the ordering value `10` of the
last emitted record, because `Prospects.sync_page` subtracts one second
before persisting. -/
theorem c3_counterexample :
    (prospects_sync_page 0 [[10]] ⟨none, []⟩).emitted = [10] ∧
    (prospects_sync_page 0 [[10]] ⟨none, []⟩).bookmark ≠
      some ((prospects_sync_page 0 [[10]] ⟨none, []⟩).emitted.getLastD 0) := by
  decide

/-- Helper: `getLastD` of a non-empty list does not depend on the
default. -/
theorem getLastD_indep : ∀ (l : List Int) (d d2 : Int), l ≠ [] →
    l.getLastD d = l.getLastD d2
  | [], _, _, h => absurd rfl h
  | a :: t, _, _, _ => by rw [List.getLastD_cons, List.getLastD_cons]

/-- Helper: `getLastD` of an append with a non-empty right part is the
right part's. -/
theorem getLastD_append_right : ∀ (l1 l2 : List Int) (d : Int), l2 ≠ [] →
    (l1 ++ l2).getLastD d = l2.getLastD d
  | [], _, _, _ => rfl
  | a :: l1, l2, d, h => by
      rw [List.cons_append, List.getLastD_cons,
        getLastD_append_right l1 l2 a h, getLastD_indep l2 a d h]

/-- Helper: a full `Prospects.sync_page` run over non-empty pages whose
timestamps are non-decreasing across the whole run emits every record (each
page arriving already sorted) and ends with the persisted bookmark at the
last emitted timestamp minus one second. -/
theorem prospects_loop_chain (pages : List (List Int)) :
    ∀ (lb : Int) (st : PSt),
      (∀ p ∈ pages, p ≠ []) →
      pages.flatten.Chain' (· ≤ ·) →
      pages ≠ [] →
      prospects_sync_page_loop pages lb st =
        ⟨some (pages.flatten.getLastD 0 - 1), st.emitted ++ pages.flatten⟩ := by
  induction pages with
  | nil => intro lb st _ _ hne; exact absurd rfl hne
  | cons p ps ih =>
      intro lb st hnp hch _
      have hp : p ≠ [] := hnp p (by simp)
      have hch2 : (p ++ ps.flatten).Chain' (· ≤ ·) := by
        simpa [List.flatten_cons] using hch
      have hsort : p.insertionSort (· ≤ ·) = p :=
        List.Sorted.insertionSort_eq
          (List.chain'_iff_pairwise.mp
            (hch2.sublist (List.sublist_append_left p ps.flatten)))
      have hnemp : ¬ p.isEmpty = true := by simpa [List.isEmpty_iff] using hp
      have hstep : prospects_sync_page_loop (p :: ps) lb st =
          prospects_sync_page_loop ps (p.getLastD lb - 1)
            ⟨some (p.getLastD lb - 1), st.emitted ++ p⟩ := by
        simp only [prospects_sync_page_loop, if_neg hnemp, hsort]
      rw [hstep]
      cases ps with
      | nil =>
          show (⟨some (p.getLastD lb - 1), st.emitted ++ p⟩ : PSt) = _
          rw [getLastD_indep p lb 0 hp]
          simp [List.flatten_cons]
      | cons q qs =>
          have hq : q ≠ [] := hnp q (by simp)
          have hfl : (q :: qs).flatten ≠ [] := by
            simp only [List.flatten_cons]
            intro hcontra
            exact hq (List.append_eq_nil.mp hcontra).1
          have hch3 : ((q :: qs).flatten).Chain' (· ≤ ·) :=
            hch2.sublist (List.sublist_append_right p _)
          have ihq := ih (p.getLastD lb - 1)
            ⟨some (p.getLastD lb - 1), st.emitted ++ p⟩
            (fun r hr => hnp r (by simp [hr])) hch3 (by simp)
          rw [ihq]
          conv_rhs => rw [List.flatten_cons]
          rw [getLastD_append_right p _ 0 hfl, ← List.append_assoc]

/-- C3 amended: for the cursor variants driven by the guarded base page
loop (the id-, created-at- and updated-at-cursor base classes), any run
over pages whose ordering values are non-decreasing across the whole run
never raises and ends with the persisted bookmark equal to the ordering
value of the last emitted record; `Prospects`, however, persists that value
minus one second: for any such run (over non-empty pages — `Prospects`
stops at the first empty page) its final bookmark is the last emitted
record's timestamp minus one second. -/
theorem c3_amended (pages : List (List Int)) (b0 : Option Int)
    (hch : pages.flatten.Chain' (· ≤ ·)) (hne : pages.flatten ≠ []) :
    (sync_pages pages ⟨none, b0, []⟩ =
      (⟨some (pages.flatten.getLastD 0), some (pages.flatten.getLastD 0),
        pages.flatten⟩, none)) ∧
    ∀ (d : Int) (st : PSt), (∀ p ∈ pages, p ≠ []) →
      prospects_sync_page d pages st =
        ⟨some (pages.flatten.getLastD 0 - 1), st.emitted ++ pages.flatten⟩ := by
  constructor
  · have hs : ∀ p ∈ pages, p.Sorted (· ≤ ·) := by
      intro p hp
      exact List.chain'_iff_pairwise.mp
        (hch.sublist (List.sublist_flatten_of_mem hp))
    rw [sync_pages_eq_flatten pages hs,
      sync_page_records_chain_none pages.flatten ⟨none, b0, []⟩ rfl hch hne]
    simp
  · intro d st hnp
    have hpne : pages ≠ [] := by
      intro h
      rw [h] at hne
      exact hne rfl
    show prospects_sync_page_loop pages (st.bookmark.getD d) st = _
    exact prospects_loop_chain pages (st.bookmark.getD d) st hnp hch hpne

/-- Witness for `c3_amended` on the non-decreasing pages `[[1,2],[2,3]]`:
the guarded base run ends at bookmark 3, the prospects run at 3 - 1 = 2,
both emitting all four records. -/
theorem c3_amended_witness :
    (sync_pages [[1, 2], [2, 3]] ⟨none, none, []⟩ =
      (⟨some 3, some 3, [1, 2, 2, 3]⟩, none)) ∧
    prospects_sync_page 0 [[1, 2], [2, 3]] ⟨none, []⟩ =
      ⟨some 2, [1, 2, 2, 3]⟩ := by
  obtain ⟨h1, h2⟩ := c3_amended [[1, 2], [2, 3]] none
    (by norm_num [List.flatten, List.chain'_cons]) (by decide)
  refine ⟨?_, ?_⟩
  · rw [h1]; decide
  · rw [h2 0 ⟨none, []⟩ (by decide)]; decide

/-! ### Prospects: one second subtracted after every non-empty page -/

/-- Helper: the `getLastD` of a non-empty list is one of its elements. -/
theorem getLastD_mem : ∀ (l : List Int) (d : Int), l ≠ [] → l.getLastD d ∈ l
  | [], _, h => absurd rfl h
  | [a], d, _ => by simp [List.getLastD]
  | a :: b :: t, d, _ => by
      rw [List.getLastD_cons]
      exact List.mem_cons_of_mem a (getLastD_mem (b :: t) a (by simp))

/-- Helper: in a list sorted ascending, every element is at most the last
element. -/
theorem le_getLastD_of_sorted : ∀ (l : List Int), l.Sorted (· ≤ ·) →
    ∀ x ∈ l, ∀ d : Int, x ≤ l.getLastD d
  | [], _, x, hx, _ => absurd hx (List.not_mem_nil x)
  | [a], _, x, hx, d => by
      simp only [List.mem_singleton] at hx
      simp [hx, List.getLastD]
  | a :: b :: t, hs, x, hx, d => by
      rcases List.sorted_cons.mp hs with ⟨hab, hs2⟩
      rw [List.getLastD_cons]
      rcases List.mem_cons.mp hx with rfl | hx2
      · exact le_trans (hab b (by simp))
          (le_getLastD_of_sorted (b :: t) hs2 b (by simp) x)
      · exact le_getLastD_of_sorted (b :: t) hs2 x hx2 a

/-- C8: in `Prospects.sync_page`, after any non-empty page (whatever pages
follow, and whatever the local bookmark `lb` and prior state are) the
persisted bookmark is the greatest `updated_at` of the page — which is the
last record of the page as emitted, since the page is sorted ascending —
minus one second, and the page's records are emitted in sorted order. -/
theorem c8_prospects_minus_one (page : List Int) (rest : List (List Int))
    (lb : Int) (st : PSt) (m : Int) (hm : page.maximum = (m : WithBot Int)) :
    prospects_sync_page_loop (page :: rest) lb st =
      prospects_sync_page_loop rest (m - 1)
        ⟨some (m - 1), st.emitted ++ page.insertionSort (· ≤ ·)⟩ := by
  obtain ⟨hmem, hub⟩ := List.maximum_eq_coe_iff.mp hm
  have hne : page ≠ [] := by rintro rfl; cases hmem
  have hnemp : ¬ page.isEmpty = true := by simpa [List.isEmpty_iff] using hne
  have hspne : page.insertionSort (· ≤ ·) ≠ [] := by
    intro h
    have hmsp : m ∈ page.insertionSort (· ≤ ·) :=
      (List.mem_insertionSort (· ≤ ·)).mpr hmem
    rw [h] at hmsp
    cases hmsp
  have hg : (page.insertionSort (· ≤ ·)).getLastD lb = m := by
    apply le_antisymm
    · exact hub _ ((List.mem_insertionSort (· ≤ ·)).mp
        (getLastD_mem _ lb hspne))
    · exact le_getLastD_of_sorted _ (List.sorted_insertionSort _ page) m
        ((List.mem_insertionSort (· ≤ ·)).mpr hmem) lb
  simp only [prospects_sync_page_loop, if_neg hnemp]
  rw [hg]

/-- Witness for `c8_prospects_minus_one`: the page `[3, 1, 2]` (maximum 3)
leaves persisted bookmark `2` and emits `[1, 2, 3]`. -/
theorem c8_prospects_minus_one_witness :
    prospects_sync_page_loop [[3, 1, 2]] 0 ⟨none, []⟩ = ⟨some 2, [1, 2, 3]⟩ := by
  rw [c8_prospects_minus_one [3, 1, 2] [] 0 ⟨none, []⟩ 3 (by decide)]
  decide

/-! ### NoUpdatedAtSortingStream (id-paginated-with-watermark variant) -/

/-- A record as seen by `NoUpdatedAtSortingStream`: its `id` and its
`updated_at` field. -/
structure NURec where
  id : Int
  updated_at : Int
deriving DecidableEq, Repr

/-- Run state of `NoUpdatedAtSortingStream`: the guard value, the two
bookmark keys `id` and `updated_at`, the instance attributes
`last_updated_at` (read once at `__init__` from the `updated_at` bookmark,
never changed: the watermark) and `max_updated_at`, and the emitted
records.  The Python truthiness test `if self.last_updated_at and ...`
always passes because the watermark is the persisted timestamp or the
configured `start_date`, a non-empty string. -/
structure NUSt where
  last : Option Int
  idBookmark : Option Int
  updatedAtBookmark : Option Int
  lastUpdatedAt : Int
  maxUpdatedAt : Int
  emitted : List NURec
deriving DecidableEq, Repr

/-- `NoUpdatedAtSortingStream.__init__` (streams.py:252-255): read the
watermark (persisted `updated_at` bookmark, else the configured start date
`d`) into `last_updated_at` and initialize `max_updated_at` to it. -/
def nu_init (d : Int) (idB updB : Option Int) : NUSt :=
  ⟨none, idB, updB, updB.getD d, updB.getD d, []⟩

/-- `NoUpdatedAtSortingStream.sync_page` (streams.py:270-279) over the
records of one page (already sorted by id): skip any record whose
`updated_at` is not strictly greater than the watermark; otherwise run the
guard on the id, fold the record's `updated_at` into `max_updated_at`,
persist the id bookmark, and emit. -/
def nu_sync_records : List NURec → NUSt → NUSt × Option OrderErr
  | [], st => (st, none)
  | r :: rs, st =>
    if r.updated_at ≤ st.lastUpdatedAt then nu_sync_records rs st
    else
      match check_order st.last r.id with
      | .error e => (st, some e)
      | .ok l =>
          nu_sync_records rs
            { st with
              last := some l,
              maxUpdatedAt := max st.maxUpdatedAt r.updated_at,
              idBookmark := some r.id,
              emitted := st.emitted ++ [r] }

/-- `NoUpdatedAtSortingStream.sync_page` for one fetched page, sorted by id
by `get_records`. -/
def nu_sync_page (page : List NURec) (st : NUSt) : NUSt × Option OrderErr :=
  nu_sync_records (page.insertionSort (fun a b => a.id ≤ b.id)) st

/-- The page loop of `Stream.sync` applied to `NoUpdatedAtSortingStream`. -/
def nu_sync_pages : List (List NURec) → NUSt → NUSt × Option OrderErr
  | [], st => (st, none)
  | p :: ps, st =>
    match nu_sync_page p st with
    | (st2, none) => nu_sync_pages ps st2
    | (st2, some e) => (st2, some e)

/-- `NoUpdatedAtSortingStream.post_sync` (streams.py:257-260): clear the
transient `id` bookmark and promote `max_updated_at` to the `updated_at`
bookmark. -/
def nu_post_sync (st : NUSt) : NUSt :=
  { st with idBookmark := none, updatedAtBookmark := some st.maxUpdatedAt }

/-- A full `NoUpdatedAtSortingStream` run.  `post_sync` runs both at normal
completion and from the generic exception handler of `Stream.sync`
(streams.py:119-128), so it is applied on both paths. -/
def nu_run (d : Int) (idB updB : Option Int) (pages : List (List NURec)) :
    NUSt × Option OrderErr :=
  match nu_sync_pages pages (nu_init d idB updB) with
  | (st, e) => (nu_post_sync st, e)

/-- Helper: invariant of `nu_sync_records` — newly emitted records all beat
the watermark, `max_updated_at` folds `max` over their update times, and
the watermark and `updated_at` bookmark are untouched. -/
theorem nu_records_inv (rs : List NURec) : ∀ st : NUSt, ∃ new : List NURec,
    (nu_sync_records rs st).1.emitted = st.emitted ++ new ∧
    (∀ r ∈ new, st.lastUpdatedAt < r.updated_at) ∧
    (nu_sync_records rs st).1.maxUpdatedAt =
      (new.map NURec.updated_at).foldl max st.maxUpdatedAt ∧
    (nu_sync_records rs st).1.lastUpdatedAt = st.lastUpdatedAt ∧
    (nu_sync_records rs st).1.updatedAtBookmark = st.updatedAtBookmark := by
  induction rs with
  | nil =>
      intro st
      exact ⟨[], by simp [nu_sync_records], by simp,
        by simp [nu_sync_records], rfl, rfl⟩
  | cons r rs ih =>
      intro st
      by_cases hle : r.updated_at ≤ st.lastUpdatedAt
      · have hstep : nu_sync_records (r :: rs) st = nu_sync_records rs st := by
          simp [nu_sync_records, hle]
        obtain ⟨new, h1, h2, h3, h4, h5⟩ := ih st
        exact ⟨new, by rw [hstep]; exact h1, h2, by rw [hstep]; exact h3,
          by rw [hstep]; exact h4, by rw [hstep]; exact h5⟩
      · cases hco : check_order st.last r.id with
        | error e =>
            have hstep : nu_sync_records (r :: rs) st = (st, some e) := by
              simp [nu_sync_records, hle, hco]
            exact ⟨[], by rw [hstep]; simp, by simp, by rw [hstep]; simp,
              by rw [hstep], by rw [hstep]⟩
        | ok l =>
            have hstep : nu_sync_records (r :: rs) st =
                nu_sync_records rs
                  { st with
                    last := some l,
                    maxUpdatedAt := max st.maxUpdatedAt r.updated_at,
                    idBookmark := some r.id,
                    emitted := st.emitted ++ [r] } := by
              simp [nu_sync_records, hle, hco]
            obtain ⟨new, h1, h2, h3, h4, h5⟩ := ih
              { st with
                last := some l,
                maxUpdatedAt := max st.maxUpdatedAt r.updated_at,
                idBookmark := some r.id,
                emitted := st.emitted ++ [r] }
            refine ⟨r :: new, ?_, ?_, ?_, ?_, ?_⟩
            · rw [hstep, h1]; simp
            · intro x hx
              rcases List.mem_cons.mp hx with rfl | hx2
              · exact lt_of_not_le hle
              · simpa using h2 x hx2
            · rw [hstep, h3]; simp
            · rw [hstep, h4]
            · rw [hstep, h5]

/-- Helper: the `nu_sync_records` invariant lifted to the page loop. -/
theorem nu_pages_inv (pages : List (List NURec)) : ∀ st : NUSt,
    ∃ new : List NURec,
    (nu_sync_pages pages st).1.emitted = st.emitted ++ new ∧
    (∀ r ∈ new, st.lastUpdatedAt < r.updated_at) ∧
    (nu_sync_pages pages st).1.maxUpdatedAt =
      (new.map NURec.updated_at).foldl max st.maxUpdatedAt ∧
    (nu_sync_pages pages st).1.lastUpdatedAt = st.lastUpdatedAt ∧
    (nu_sync_pages pages st).1.updatedAtBookmark = st.updatedAtBookmark := by
  induction pages with
  | nil =>
      intro st
      exact ⟨[], by simp [nu_sync_pages], by simp,
        by simp [nu_sync_pages], rfl, rfl⟩
  | cons p ps ih =>
      intro st
      obtain ⟨new1, g1, g2, g3, g4, g5⟩ :=
        nu_records_inv (p.insertionSort (fun a b => a.id ≤ b.id)) st
      cases hp : nu_sync_records (p.insertionSort (fun a b => a.id ≤ b.id)) st with
      | mk st2 err =>
        rw [hp] at g1 g3 g4 g5
        have hpage : nu_sync_page p st = (st2, err) := hp
        cases err with
        | some e =>
            have hstep : nu_sync_pages (p :: ps) st = (st2, some e) := by
              simp [nu_sync_pages, hpage]
            exact ⟨new1, by rw [hstep]; exact g1, g2, by rw [hstep]; exact g3,
              by rw [hstep]; exact g4, by rw [hstep]; exact g5⟩
        | none =>
            have hstep : nu_sync_pages (p :: ps) st = nu_sync_pages ps st2 := by
              simp [nu_sync_pages, hpage]
            obtain ⟨new2, k1, k2, k3, k4, k5⟩ := ih st2
            refine ⟨new1 ++ new2, ?_, ?_, ?_, ?_, ?_⟩
            · rw [hstep, k1, g1, List.append_assoc]
            · intro x hx
              rcases List.mem_append.mp hx with hx1 | hx2
              · exact g2 x hx1
              · have := k2 x hx2
                rwa [g4] at this
            · rw [hstep, k3, g3, List.map_append, List.foldl_append]
            · rw [hstep, k4, g4]
            · rw [hstep, k5, g5]

/-- C4: for the id-paginated-with-watermark variant, every emitted record's
update time strictly exceeds the watermark read at run start (a record with
update time equal to the watermark is skipped); the persisted `updated_at`
bookmark after `post_sync` is the fold of `max` over the emitted records'
update times starting from the old watermark (so the old watermark if none
exceeded it), and the transient `id` bookmark is cleared. -/
theorem c4_watermark_run (d : Int) (idB updB : Option Int)
    (pages : List (List NURec)) :
    (∀ r ∈ (nu_run d idB updB pages).1.emitted, updB.getD d < r.updated_at) ∧
    (nu_run d idB updB pages).1.updatedAtBookmark =
      some (((nu_run d idB updB pages).1.emitted.map NURec.updated_at).foldl
        max (updB.getD d)) ∧
    (nu_run d idB updB pages).1.idBookmark = none := by
  obtain ⟨new, h1, h2, h3, _h4, _h5⟩ := nu_pages_inv pages (nu_init d idB updB)
  cases hrun : nu_sync_pages pages (nu_init d idB updB) with
  | mk st e =>
    rw [hrun] at h1 h3
    have hres : nu_run d idB updB pages = (nu_post_sync st, e) := by
      simp [nu_run, hrun]
    have hemit : (nu_run d idB updB pages).1.emitted = new := by
      rw [hres]
      simpa [nu_post_sync, nu_init] using h1
    refine ⟨?_, ?_, ?_⟩
    · intro r hr
      rw [hemit] at hr
      simpa [nu_init] using h2 r hr
    · rw [hemit, hres]
      simp only [nu_post_sync, nu_init] at h3 ⊢
      rw [h3]
    · rw [hres]; rfl

/-- Witness for `c4_watermark_run`, end-to-end scenario B: watermark 100,
one record with equal update time (skipped) and one with a later one
(emitted); new watermark 200, id cursor cleared. -/
theorem c4_watermark_run_witness :
    (100 : Int) < 200 ∧
    (nu_run 0 none (some 100) [[⟨1, 100⟩, ⟨2, 200⟩]]).1.updatedAtBookmark = some 200 ∧
    (nu_run 0 none (some 100) [[⟨1, 100⟩, ⟨2, 200⟩]]).1.idBookmark = none := by
  obtain ⟨h1, h2, h3⟩ := c4_watermark_run 0 none (some 100) [[⟨1, 100⟩, ⟨2, 200⟩]]
  refine ⟨h1 ⟨2, 200⟩ (by decide), ?_, h3⟩
  rw [h2]
  decide

/-! ### UpdatedAtSortByIdReplicationStream (snapshot-time variant) -/

/-- Bookmark state of `UpdatedAtSortByIdReplicationStream` (campaigns):
the `sync_start_time`, `id` and `last_updated` bookmark keys.
`get_bookmark("sync_start_time")` has no default (the defaults table of
`ComplexBookmarkStream.get_default_start` has no such key), so an absent
value stays `none`. -/
structure CampSt where
  sync_start_time : Option Int
  idBookmark : Option Int
  last_updated : Option Int
deriving DecidableEq, Repr

/-- `UpdatedAtSortByIdReplicationStream.pre_sync` (streams.py:304-310):
read `sync_start_time`; only when absent, snapshot `now` and persist it;
returns the run's `start_time` together with the state. -/
def ua_pre_sync (now : Int) (st : CampSt) : Int × CampSt :=
  match st.sync_start_time with
  | some t => (t, st)
  | none => (now, { st with sync_start_time := some now })

/-- `UpdatedAtSortByIdReplicationStream.post_sync` (streams.py:312-316):
clear `sync_start_time`, clear `id`, and set `last_updated` to the run's
`start_time`. -/
def ua_post_sync (startTime : Int) (st : CampSt) : CampSt :=
  { st with
    sync_start_time := none,
    idBookmark := none,
    last_updated := some startTime }

/-- `UpdatedAtSortByIdReplicationStream.sync_page` (streams.py:326-331)
over the records of one page (sorted ids): guard each id and persist it as
the `id` bookmark. -/
def ua_sync_records : List Int → Option Int → CampSt →
    (Option Int × CampSt) × Option OrderErr
  | [], g, st => ((g, st), none)
  | v :: vs, g, st =>
    match check_order g v with
    | .error e => ((g, st), some e)
    | .ok l => ua_sync_records vs (some l) { st with idBookmark := some v }

/-- The page loop of `Stream.sync` applied to
`UpdatedAtSortByIdReplicationStream`. -/
def ua_sync_pages : List (List Int) → Option Int → CampSt →
    (Option Int × CampSt) × Option OrderErr
  | [], g, st => ((g, st), none)
  | p :: ps, g, st =>
    match ua_sync_records (p.insertionSort (· ≤ ·)) g st with
    | ((g2, st2), none) => ua_sync_pages ps g2 st2
    | (gs, some e) => (gs, some e)

/-- A full `UpdatedAtSortByIdReplicationStream` run: `pre_sync`, the page
loop, then `post_sync` (which `Stream.sync` runs both at normal completion
and from its generic exception handler). -/
def ua_run (now : Int) (pages : List (List Int)) (st0 : CampSt) :
    CampSt × Option OrderErr :=
  let pre := ua_pre_sync now st0
  let res := ua_sync_pages pages none pre.2
  (ua_post_sync pre.1 res.1.2, res.2)

/-- C5: at run start `sync_start_time` is snapshotted to `now` and
persisted only when absent (an existing value is kept and the state is
unchanged); at run end `sync_start_time` and `id` are cleared and
`last_updated` is set to the run's `start_time` — the pre-existing
`sync_start_time` if there was one, else the `now` snapshotted by this
run. -/
theorem c5_snapshot_time (now : Int) (pages : List (List Int)) (st0 : CampSt) :
    (∀ t, st0.sync_start_time = some t → ua_pre_sync now st0 = (t, st0)) ∧
    (st0.sync_start_time = none →
      ua_pre_sync now st0 = (now, { st0 with sync_start_time := some now })) ∧
    ((ua_run now pages st0).1.sync_start_time = none ∧
      (ua_run now pages st0).1.idBookmark = none ∧
      (ua_run now pages st0).1.last_updated =
        some (st0.sync_start_time.getD now)) := by
  refine ⟨?_, ?_, ?_, ?_, ?_⟩
  · intro t ht
    simp [ua_pre_sync, ht]
  · intro ht
    simp [ua_pre_sync, ht]
  · rfl
  · rfl
  · show some (ua_pre_sync now st0).1 = _
    cases ht : st0.sync_start_time <;> simp [ua_pre_sync, ht]

/-- Witness for `c5_snapshot_time`: a present snapshot (30) is kept
unchanged; an absent one is set to now (50); after a run started with an
absent snapshot, `sync_start_time` and `id` are cleared and `last_updated`
is 50. -/
theorem c5_snapshot_time_witness :
    ua_pre_sync 50 ⟨some 30, some 7, none⟩ = (30, ⟨some 30, some 7, none⟩) ∧
    ua_pre_sync 50 ⟨none, some 7, none⟩ = (50, ⟨some 50, some 7, none⟩) ∧
    (ua_run 50 [[1, 2]] ⟨none, some 7, none⟩).1.sync_start_time = none ∧
    (ua_run 50 [[1, 2]] ⟨none, some 7, none⟩).1.idBookmark = none ∧
    (ua_run 50 [[1, 2]] ⟨none, some 7, none⟩).1.last_updated = some 50 := by
  have ha := (c5_snapshot_time 50 [[1, 2]] ⟨some 30, some 7, none⟩).1 30 rfl
  have hb := (c5_snapshot_time 50 [[1, 2]] ⟨none, some 7, none⟩).2.1 rfl
  have hc := (c5_snapshot_time 50 [[1, 2]] ⟨none, some 7, none⟩).2.2
  exact ⟨ha, hb, hc.1, hc.2.1, by simpa using hc.2.2⟩

/-! ### ChildStream: parent/child bookmark isolation -/

/-- The shared singer state, as an association list from
(stream name, bookmark key) to values; the most recent write is first.
Values are abstract tags (`Nat`) standing for the JSON values, including
the nested parent-snapshot dict that `ChildStream` stores under its
`parent_bookmark` key. -/
def StMap := List ((String × String) × Nat)

/-- `singer.bookmarks.get_bookmark`. -/
def stLookup : StMap → String × String → Option Nat
  | [], _ => none
  | (k, v) :: m, key => if k = key then some v else stLookup m key

/-- `singer.bookmarks.write_bookmark`. -/
def stWrite (m : StMap) (k : String × String) (v : Nat) : StMap :=
  (k, v) :: m

/-- `singer.bookmarks.clear_bookmark`: drop the key's entries. -/
def stClear : StMap → String × String → StMap
  | [], _ => []
  | (k1, v) :: m, k => if k1 = k then stClear m k else (k1, v) :: stClear m k

theorem stLookup_write_ne (m : StMap) (k k2 : String × String) (v : Nat)
    (h : k2 ≠ k) : stLookup (stWrite m k v) k2 = stLookup m k2 := by
  simp [stWrite, stLookup, Ne.symm h]

theorem stLookup_clear_ne (m : StMap) (k k2 : String × String)
    (h : k2 ≠ k) : stLookup (stClear m k) k2 = stLookup m k2 := by
  induction m with
  | nil => rfl
  | cons e m ih =>
      rcases e with ⟨k1, v1⟩
      by_cases he : k1 = k
      · have hk12 : ¬ k1 = k2 := by rw [he]; exact Ne.symm h
        rw [stClear, if_pos he, ih]
        exact (if_neg hk12).symm
      · rw [stClear, if_neg he]
        show (if k1 = k2 then some v1 else stLookup (stClear m k) k2) =
          (if k1 = k2 then some v1 else stLookup m k2)
        by_cases hk : k1 = k2
        · rw [if_pos hk, if_pos hk]
        · rw [if_neg hk, if_neg hk, ih]

theorem stLookup_clear_self (m : StMap) (k : String × String) :
    stLookup (stClear m k) k = none := by
  induction m with
  | nil => rfl
  | cons e m ih =>
      rcases e with ⟨k1, v1⟩
      by_cases he : k1 = k
      · rw [stClear, if_pos he]; exact ih
      · rw [stClear, if_neg he]
        show (if k1 = k then some v1 else stLookup (stClear m k) k) = none
        rw [if_neg he]
        exact ih

/-- One batch of parent ids in `ChildStream.sync` (streams.py:389-407),
seen through its writes to the shared state: `get_records`
(streams.py:353-374) writes the child's `offset` bookmark
(`old offset + 200`, default 0) once per request (`fetches` many requests
for the batch), then the loop clears the child's `offset`
(streams.py:405), and `get_parent_ids` (streams.py:380-387) persists the
updated parent snapshot under the child's `parent_bookmark` key.  The
parent cursor itself runs against the private snapshot dict
(`emit=False`), not against the shared state. -/
structure Batch where
  fetches : Nat
  snap : Nat
deriving DecidableEq, Repr

/-- The `offset` writes of the child's `get_records` calls for one
batch. -/
def child_get_records_writes (child : String) : Nat → StMap → StMap
  | 0, m => m
  | n + 1, m =>
      child_get_records_writes child n
        (stWrite m (child, "offset") ((stLookup m (child, "offset")).getD 0 + 200))

/-- The state effect of processing one parent batch in
`ChildStream.sync`. -/
def child_batch (child : String) (b : Batch) (m : StMap) : StMap :=
  stWrite (stClear (child_get_records_writes child b.fetches m) (child, "offset"))
    (child, "parent_bookmark") b.snap

/-- A full `ChildStream` run's effect on the shared state:
`pre_sync` (streams.py:338-344) writes the child's `parent_bookmark` key
only when absent (with the initial snapshot `snap0`); each parent batch is
processed; `post_sync` (streams.py:346-348) clears the child's
`parent_bookmark` key. -/
def child_sync (child : String) (snap0 : Nat) (batches : List Batch)
    (m : StMap) : StMap :=
  stClear
    (batches.foldl (fun acc b => child_batch child b acc)
      (if stLookup m (child, "parent_bookmark") = none
        then stWrite m (child, "parent_bookmark") snap0 else m))
    (child, "parent_bookmark")

theorem child_get_records_writes_frame (child parent : String)
    (hne : parent ≠ child) (key : String) :
    ∀ (n : Nat) (m : StMap),
      stLookup (child_get_records_writes child n m) (parent, key) =
        stLookup m (parent, key) := by
  intro n
  induction n with
  | zero => intro m; rfl
  | succ n ih =>
      intro m
      rw [child_get_records_writes, ih, stLookup_write_ne]
      intro h
      exact hne (congrArg Prod.fst h)

theorem child_batch_frame (child parent : String) (hne : parent ≠ child)
    (key : String) (b : Batch) (m : StMap) :
    stLookup (child_batch child b m) (parent, key) =
      stLookup m (parent, key) := by
  have hpk : (parent, key) ≠ (child, "parent_bookmark") :=
    fun h => hne (congrArg Prod.fst h)
  have hok : (parent, key) ≠ (child, "offset") :=
    fun h => hne (congrArg Prod.fst h)
  rw [child_batch, stLookup_write_ne _ _ _ _ hpk, stLookup_clear_ne _ _ _ hok,
    child_get_records_writes_frame child parent hne key]

/-- C6: a Child run never touches the Parent's live top-level bookmarks —
for every key, the parent's entry in the shared state is unchanged — and
after the run the child's `parent_bookmark` key is gone. -/
theorem c6_parent_isolation (child parent : String) (hne : parent ≠ child)
    (snap0 : Nat) (batches : List Batch) (m : StMap) (key : String) :
    stLookup (child_sync child snap0 batches m) (parent, key) =
      stLookup m (parent, key) ∧
    stLookup (child_sync child snap0 batches m) (child, "parent_bookmark") =
      none := by
  have hpk : (parent, key) ≠ (child, "parent_bookmark") :=
    fun h => hne (congrArg Prod.fst h)
  constructor
  · rw [child_sync, stLookup_clear_ne _ _ _ hpk]
    have hfold : ∀ (bs : List Batch) (m2 : StMap),
        stLookup (bs.foldl (fun acc b => child_batch child b acc) m2) (parent, key) =
          stLookup m2 (parent, key) := by
      intro bs
      induction bs with
      | nil => intro m2; rfl
      | cons b bs ih =>
          intro m2
          rw [List.foldl_cons, ih, child_batch_frame child parent hne key]
    rw [hfold]
    by_cases hpb : stLookup m (child, "parent_bookmark") = none
    · rw [if_pos hpb, stLookup_write_ne _ _ _ _ hpk]
    · rw [if_neg hpb]
  · exact stLookup_clear_self _ _

/-- Witness for `c6_parent_isolation`: child "visits" with parent
"visitors" (value 99 under key "updated_at" in the shared state), one batch
of two fetches: the parent entry survives unchanged and the child's
`parent_bookmark` is gone. -/
theorem c6_parent_isolation_witness :
    stLookup
      (child_sync "visits" 0 [⟨2, 1⟩] [(("visitors", "updated_at"), 99)])
      ("visitors", "updated_at") =
      stLookup [(("visitors", "updated_at"), 99)] ("visitors", "updated_at") ∧
    stLookup
      (child_sync "visits" 0 [⟨2, 1⟩] [(("visitors", "updated_at"), 99)])
      ("visits", "parent_bookmark") = none :=
  c6_parent_isolation "visits" "visitors" (by decide) 0 [⟨2, 1⟩]
    [(("visitors", "updated_at"), 99)] "updated_at"

/-! ### Stream.sync: error classification and exit codes -/

/-- The two exception classes `Stream.sync` distinguishes:
`client.InvalidCredentials`, and every other exception (including the
out-of-order error and `PardotException`). -/
inductive ErrClass where
  | invalidCreds
  | other
deriving DecidableEq, Repr

/-- How an entity run ends: falling off normally, or `sys.exit(code)`. -/
inductive Outcome where
  | completed
  | exited (code : Nat)
deriving DecidableEq, Repr

/-- Run outcome plus whether the entity's `post_sync` hook ran. -/
structure SyncResult where
  outcome : Outcome
  postSyncRan : Bool
deriving DecidableEq, Repr

/-- `Stream.sync` (streams.py:101-128).  Each supply entry is either the
page the client returns or an exception raised while fetching it.  The
while loop ends when a pass adds no new records (an empty page), then
`post_sync` runs and the generator completes.  `InvalidCredentials` is
logged and the process exits with code 5 — `post_sync` is *not* run.  Any
other exception (including a guard failure inside `sync_page`) is logged,
`post_sync` runs, and the process exits with code 1. -/
def stream_sync : List (Except ErrClass (List Int)) → RunSt → SyncResult × RunSt
  | [], st => (⟨.completed, true⟩, st)
  | .error .invalidCreds :: _, st => (⟨.exited 5, false⟩, st)
  | .error .other :: _, st => (⟨.exited 1, true⟩, st)
  | .ok page :: ps, st =>
    if page.isEmpty then (⟨.completed, true⟩, st)
    else
      match sync_page page st with
      | (st2, none) => stream_sync ps st2
      | (st2, some _) => (⟨.exited 1, true⟩, st2)

/-- Helper: `post_sync` is skipped exactly for the invalid-credentials
exit 5. -/
theorem stream_sync_postsync_iff (pages : List (Except ErrClass (List Int))) :
    ∀ st : RunSt,
      ((stream_sync pages st).1.postSyncRan = false ↔
        (stream_sync pages st).1.outcome = .exited 5) := by
  induction pages with
  | nil => intro st; simp [stream_sync]
  | cons p ps ih =>
      intro st
      match p with
      | .error .invalidCreds => simp [stream_sync]
      | .error .other => simp [stream_sync]
      | .ok page =>
          by_cases hp : page.isEmpty
          · simp [stream_sync, hp]
          · cases hsp : sync_page page st with
            | mk st2 err =>
              cases err with
              | none => simpa [stream_sync, hp, hsp] using ih st2
              | some e => simp [stream_sync, hp, hsp]

/-- C9: if an entity run hits an exception after some successfully
processed non-empty pages, an invalid-credentials error exits with code 5
*without* running `post_sync`, while any other exception runs `post_sync`
(persisting the partial state reached so far) and exits with code 1 — in
both cases the run terminates rather than skipping to the next entity —
and across all runs, `post_sync` is skipped exactly when the run exits
with code 5. -/
theorem c9_error_exits (prefix2 : List (List Int)) (c : ErrClass)
    (rest : List (Except ErrClass (List Int))) (st : RunSt)
    (hne : ∀ p ∈ prefix2, p ≠ [])
    (hok : (sync_pages prefix2 st).2 = none) :
    (c = .invalidCreds →
      stream_sync (prefix2.map Except.ok ++ Except.error c :: rest) st =
        (⟨.exited 5, false⟩, (sync_pages prefix2 st).1)) ∧
    (c = .other →
      stream_sync (prefix2.map Except.ok ++ Except.error c :: rest) st =
        (⟨.exited 1, true⟩, (sync_pages prefix2 st).1)) ∧
    (∀ (pages : List (Except ErrClass (List Int))) (st3 : RunSt),
      ((stream_sync pages st3).1.postSyncRan = false ↔
        (stream_sync pages st3).1.outcome = .exited 5)) := by
  refine ⟨?_, ?_, fun pages st3 => stream_sync_postsync_iff pages st3⟩ <;>
  · rintro rfl
    induction prefix2 generalizing st with
    | nil => rfl
    | cons p ps ih =>
        have hpne : ¬ p.isEmpty := by
          simpa [List.isEmpty_iff] using hne p (by simp)
        cases hsp : sync_page p st with
        | mk st2 err =>
          cases err with
          | none =>
              have hrest : ∀ q ∈ ps, q ≠ [] := fun q hq => hne q (by simp [hq])
              have hok2 : (sync_pages ps st2).2 = none := by
                have : sync_pages (p :: ps) st = sync_pages ps st2 := by
                  simp [sync_pages, hsp]
                rwa [this] at hok
              have hmid : (sync_pages (p :: ps) st).1 = (sync_pages ps st2).1 := by
                simp [sync_pages, hsp]
              rw [List.map_cons, List.cons_append]
              show stream_sync (Except.ok p :: _) st = _
              rw [hmid]
              simpa [stream_sync, hpne, hsp] using ih st2 hrest hok2
          | some e =>
              exfalso
              have : sync_pages (p :: ps) st = (st2, some e) := by
                simp [sync_pages, hsp]
              rw [this] at hok
              exact Option.some_ne_none e hok

/-- Witness for `c9_error_exits`: after the successfully processed page
`[1]`, invalid credentials exit 5 without `post_sync`; the same prefix
followed by a generic error exits 1 with `post_sync` run. -/
theorem c9_error_exits_witness :
    stream_sync [Except.ok [1], Except.error .invalidCreds] ⟨none, none, []⟩ =
      (⟨.exited 5, false⟩, (sync_pages [[1]] ⟨none, none, []⟩).1) ∧
    stream_sync [Except.ok [1], Except.error .other] ⟨none, none, []⟩ =
      (⟨.exited 1, true⟩, (sync_pages [[1]] ⟨none, none, []⟩).1) := by
  have h1 := (c9_error_exits [[1]] .invalidCreds [] ⟨none, none, []⟩
    (by decide) (by decide)).1 rfl
  have h2 := (c9_error_exits [[1]] .other [] ⟨none, none, []⟩
    (by decide) (by decide)).2.1 rfl
  exact ⟨h1, h2⟩

/-! ### Time-windowed extraction -/

/-- `client.PAGE_SIZE` (client.py:14). -/
def PAGE_SIZE : Nat := 200

/-- `timedelta(days=7)` in seconds. -/
def week : Int := 7 * 24 * 60 * 60

/-- The query parameters of `ListMemberships.get_records`
(streams.py:763-795) that drive its loop: the window bounds
`updated_after`/`updated_before` and the pagination `offset`
(`params.pop("offset", 0)` removes the key; `params.get("offset", 0)`
defaults it to 0). -/
structure LMParams where
  updated_after : Int
  updated_before : Int
  offset : Option Nat
deriving DecidableEq, Repr

/-- One upstream response to a `ListMemberships` request: the number of
records in the page and the reported `total_results`. -/
structure LMResp where
  numRecords : Nat
  total_results : Nat
deriving DecidableEq, Repr

/-- The `while True` loop of `ListMemberships.get_records`
(streams.py:770-795) with a fixed `now`, returning the list of requests it
issues: each iteration first checks `is_after(updated_after, now)`
(strictly greater, streams.py:809-815) and returns without a request if it
holds; otherwise it posts the request, then either advances `offset` by one
page (when `total_results > offset` and the page was full) or slides the
window forward by 7 days dropping `offset`.  `resps` is the supply of
responses (the loop stops when it runs out); `fuel` bounds the
iterations. -/
def lm_requests (now : Int) : Nat → List LMResp → LMParams → List LMParams
  | 0, _, _ => []
  | fuel + 1, resps, p =>
    if now < p.updated_after then []
    else
      match resps with
      | [] => [p]
      | r :: rs =>
          let offset := p.offset.getD 0
          let p2 :=
            if offset < r.total_results ∧ PAGE_SIZE ≤ r.numRecords then
              { p with offset := some (offset + PAGE_SIZE) }
            else
              { updated_after := p.updated_before,
                updated_before := p.updated_before + week,
                offset := none }
          p :: lm_requests now fuel rs p2

/-- The `while True` loop of `VisitorActivities.sync` (streams.py:460-500)
with the `now` captured at its start: each pass runs `sync_page` over the
next page (its window's `created_after` is the current bookmark, default
`d`; `created_before` is that plus 7 days, streams.py:428-448); a pass with
no records breaks when `now < created_before`, else slides the bookmark to
`created_before`.  Returns the final state, the `created_after` values of
the requests issued, and whether the loop broke. -/
def va_sync_loop (now d : Int) : Nat → List (List Int) → VASt →
    VASt × List Int × Bool
  | 0, _, st => (st, [], false)
  | fuel + 1, pages, st =>
    let ca := st.bookmark.getD d
    let page := pages.headD []
    let st2 := va_sync_page d page st
    if page.length = 0 ∧ now < ca + week then (st2, [ca], true)
    else
      let st3 := if page.length = 0 then { st2 with bookmark := some (ca + week) }
                 else st2
      let res := va_sync_loop now d fuel pages.tail st3
      (res.1, ca :: res.2.1, res.2.2)

/-- C7 counterexample: the claim says windowed advancement halts exactly
when the window's start reaches or exceeds `now`.  But (i)
`ListMemberships` with a window starting exactly at `now = 100` does not
halt — it issues a request (`is_after` is strict); and (ii)
`VisitorActivities` halts (breaks) on an empty pass whose window starts at
50, strictly before `now = 100`, because its halt condition compares `now`
with the window *end*. -/
theorem c7_counterexample :
    lm_requests 100 2 [⟨0, 0⟩] ⟨100, 100 + week, none⟩ ≠ [] ∧
    ((va_sync_loop 100 0 2 [[]] ⟨none, some 50, []⟩).2.2 = true ∧
      (50 : Int) < 100) := by
  decide

/-- Helper: the bookmark after a `VisitorActivities` page pass is either
unchanged or one of the page's records. -/
theorem va_records_bookmark (d : Int) (rs : List Int) : ∀ st : VASt,
    (va_sync_records d rs st).bookmark = st.bookmark ∨
    ∃ v ∈ rs, (va_sync_records d rs st).bookmark = some v := by
  induction rs with
  | nil => intro st; left; rfl
  | cons v vs ih =>
      intro st
      by_cases hv : v > st.last.getD (st.bookmark.getD d)
      · have hstep : va_sync_records d (v :: vs) st =
            va_sync_records d vs ⟨some v, some v, st.emitted ++ [v]⟩ := by
          simp [va_sync_records, hv]
        rw [hstep]
        rcases ih ⟨some v, some v, st.emitted ++ [v]⟩ with h | ⟨w, hw, hb⟩
        · exact Or.inr ⟨v, by simp, h⟩
        · exact Or.inr ⟨w, by simp [hw], hb⟩
      · have hstep : va_sync_records d (v :: vs) st =
            va_sync_records d vs
              ⟨some (st.last.getD (st.bookmark.getD d)), st.bookmark,
                st.emitted ++ [v]⟩ := by
          simp [va_sync_records, hv]
        rw [hstep]
        rcases ih ⟨some (st.last.getD (st.bookmark.getD d)), st.bookmark,
          st.emitted ++ [v]⟩ with h | ⟨w, hw, hb⟩
        · exact Or.inl h
        · exact Or.inr ⟨w, by simp [hw], hb⟩

/-- Helper: a `VisitorActivities` page of past records keeps the bookmark
in the past. -/
theorem va_page_bookmark_le (now d : Int) (page : List Int) (st : VASt)
    (hst : st.bookmark.getD d ≤ now) (hpg : ∀ v ∈ page, v ≤ now) :
    (va_sync_page d page st).bookmark.getD d ≤ now := by
  rcases va_records_bookmark d (page.insertionSort (· ≤ ·)) st with h | ⟨w, hw, hb⟩
  · rw [va_sync_page] at *
    rw [h]
    exact hst
  · rw [va_sync_page] at *
    rw [hb]
    exact hpg w ((List.mem_insertionSort _).mp hw)

/-- Helper: with the run starting in the past and all records in the past,
every `VisitorActivities` request window starts at or before `now`. -/
theorem va_requests_le (now d : Int) : ∀ (fuel : Nat) (pages : List (List Int))
    (st : VASt), st.bookmark.getD d ≤ now →
    (∀ p ∈ pages, ∀ v ∈ p, v ≤ now) →
    ∀ ca ∈ (va_sync_loop now d fuel pages st).2.1, ca ≤ now := by
  intro fuel
  induction fuel with
  | zero =>
      intro pages st _ _ ca hca
      simp [va_sync_loop] at hca
  | succ fuel ih =>
      intro pages st h1 h2 ca hca
      by_cases hbr : (pages.headD []).length = 0 ∧ now < st.bookmark.getD d + week
      · simp only [va_sync_loop, if_pos hbr, List.mem_singleton] at hca
        rw [hca]
        exact h1
      · simp only [va_sync_loop, if_neg hbr, List.mem_cons] at hca
        rcases hca with rfl | hca2
        · exact h1
        · have htl : ∀ p ∈ pages.tail, ∀ v ∈ p, v ≤ now :=
            fun p hp => h2 p (List.mem_of_mem_tail hp)
          by_cases hn : (pages.headD []).length = 0
          · have hwk : st.bookmark.getD d + week ≤ now := by
              rcases not_and_or.mp hbr with hc | hc
              · exact absurd hn hc
              · exact not_lt.mp hc
            have hb3 : ((if (pages.headD []).length = 0 then
                { va_sync_page d (pages.headD []) st with
                  bookmark := some (st.bookmark.getD d + week) }
                else va_sync_page d (pages.headD []) st) : VASt).bookmark.getD d ≤
                now := by
              rw [if_pos hn]
              simpa using hwk
            exact ih pages.tail _ hb3 htl ca hca2
          · have hpg : ∀ v ∈ pages.headD [], v ≤ now := by
              intro v hv
              cases pages with
              | nil => cases hv
              | cons a l => exact h2 a (by simp) v hv
            have hb3 : ((if (pages.headD []).length = 0 then
                { va_sync_page d (pages.headD []) st with
                  bookmark := some (st.bookmark.getD d + week) }
                else va_sync_page d (pages.headD []) st) : VASt).bookmark.getD d ≤
                now := by
              rw [if_neg hn]
              exact va_page_bookmark_le now d _ st h1 hpg
            exact ih pages.tail _ hb3 htl ca hca2

/-- C7 amended: for `ListMemberships.get_records` with a fixed `now`,
advancement halts (no request issued) exactly when the window's start
*strictly* exceeds `now` — a window starting exactly at `now` is still
requested — and every issued request's window start is at most `now`, so no
request is issued for a window lying entirely in the future.  For
`VisitorActivities.sync`, the loop instead halts on a pass with no records
whose window *end* (start + 7 days) strictly exceeds `now`; and provided
the run starts with a bookmark at or before `now` and records carry
timestamps at or before `now`, every request's window start is at most
`now`. -/
theorem c7_amended :
    (∀ (now : Int) (fuel : Nat) (resps : List LMResp) (p : LMParams),
      now < p.updated_after → lm_requests now fuel resps p = []) ∧
    (∀ (now : Int) (fuel : Nat) (resps : List LMResp) (p : LMParams),
      p.updated_after ≤ now →
        ∃ tl, lm_requests now (fuel + 1) resps p = p :: tl) ∧
    (∀ (now : Int) (fuel : Nat) (resps : List LMResp) (p : LMParams),
      ∀ q ∈ lm_requests now fuel resps p, q.updated_after ≤ now) ∧
    (∀ (now d : Int) (fuel : Nat) (pages : List (List Int)) (st : VASt),
      pages.headD [] = [] → now < st.bookmark.getD d + week →
        va_sync_loop now d (fuel + 1) pages st =
          (st, [st.bookmark.getD d], true)) ∧
    (∀ (now d : Int) (fuel : Nat) (pages : List (List Int)) (st : VASt),
      st.bookmark.getD d ≤ now →
      (∀ p ∈ pages, ∀ v ∈ p, v ≤ now) →
      ∀ ca ∈ (va_sync_loop now d fuel pages st).2.1, ca ≤ now) := by
  refine ⟨?_, ?_, ?_, ?_, va_requests_le⟩
  · intro now fuel resps p h
    cases fuel with
    | zero => rfl
    | succ fuel => simp [lm_requests, if_pos h]
  · intro now fuel resps p h
    have hn : ¬ now < p.updated_after := not_lt.mpr h
    cases resps with
    | nil => exact ⟨[], by simp [lm_requests, if_neg hn]⟩
    | cons r rs =>
        exact ⟨lm_requests now fuel rs
          (if p.offset.getD 0 < r.total_results ∧ PAGE_SIZE ≤ r.numRecords then
            { p with offset := some (p.offset.getD 0 + PAGE_SIZE) }
          else
            { updated_after := p.updated_before,
              updated_before := p.updated_before + week,
              offset := none }),
          by simp [lm_requests, if_neg hn]⟩
  · intro now fuel
    induction fuel with
    | zero =>
        intro resps p q hq
        simp [lm_requests] at hq
    | succ fuel ih =>
        intro resps p q hq
        by_cases h : now < p.updated_after
        · simp [lm_requests, if_pos h] at hq
        · cases resps with
          | nil =>
              simp [lm_requests, if_neg h] at hq
              rw [hq]
              exact not_lt.mp h
          | cons r rs =>
              simp only [lm_requests, if_neg h, List.mem_cons] at hq
              rcases hq with rfl | hq2
              · exact not_lt.mp h
              · exact ih rs _ q hq2
  · intro now d fuel pages st h1 h2
    have hc : ([] : List Int).length = 0 ∧ now < st.bookmark.getD d + week :=
      ⟨rfl, h2⟩
    simp only [va_sync_loop, h1]
    rw [if_pos hc]
    rfl

/-- Witness for `c7_amended`: a window starting at 101 (past `now = 100`)
issues nothing; one starting exactly at 100 is still requested; the
requests of a run starting at 50 all start at or before `now`; an empty
`VisitorActivities` pass with window end beyond `now` halts; and a
`VisitorActivities` request window start (60) from such a run is at most
`now`. -/
theorem c7_amended_witness :
    lm_requests 100 3 [⟨0, 0⟩] ⟨101, 101 + week, none⟩ = [] ∧
    lm_requests 100 3 [] ⟨100, 100 + week, none⟩ ≠ [] ∧
    (50 : Int) ≤ 100 ∧
    va_sync_loop 100 0 3 [[]] ⟨none, some 50, []⟩ =
      (⟨none, some 50, []⟩, [50], true) ∧
    (60 : Int) ≤ 100 := by
  obtain ⟨h1, h2, h3, h4, h5⟩ := c7_amended
  refine ⟨h1 100 3 [⟨0, 0⟩] ⟨101, 101 + week, none⟩ (by decide), ?_, ?_, ?_, ?_⟩
  · obtain ⟨tl, htl⟩ := h2 100 2 [] ⟨100, 100 + week, none⟩ (by decide)
    rw [htl]
    simp
  · exact h3 100 2 [⟨0, 0⟩] ⟨50, 50 + week, none⟩ ⟨50, 50 + week, none⟩
      (by decide)
  · have h := h4 100 0 2 [[]] ⟨none, some 50, []⟩ (by decide) (by decide)
    rw [h]
    decide
  · exact h5 100 0 3 [[60]] ⟨none, some 50, []⟩ (by decide) (by decide) 60
      (by decide)

end TapPardot
